import Mathlib

/-!
Shallow embedding of the drpc package (src/drpc.go) and of the core the
spec describes beneath its interfaces.  The Go source under src/ contains
only the exported interfaces (`Conn`, `Stream`, `Server`, `Description`,
`Transport`) and the three error class variables; the framing, stream
state machine, multiplexing and dispatch logic are specified in spec.md
but absent from src/, so those parts are modelled from the spec, each
marked in its doc comment.
-/

namespace Drpc

/-- An error class, as `errs.Class` in src/drpc.go line 16-18: classes are
distinguished by their name string. -/
structure ErrsClass where
  name : String
deriving DecidableEq, Repr

/-- `Error = errs.Class("drpc")` (src/drpc.go line 16). -/
def Error : ErrsClass := ⟨"drpc"⟩

/-- `InternalError = errs.Class("internal error")` (src/drpc.go line 17). -/
def InternalError : ErrsClass := ⟨"internal error"⟩

/-- `ProtocolError = errs.Class("protocol error")` (src/drpc.go line 18). -/
def ProtocolError : ErrsClass := ⟨"protocol error"⟩

/-- Modelled from the spec: the errs library's tagged error values are not
part of this repository's source, so they are modelled after §9 "a
tagged-error type carrying a class enum and an underlying cause chain".
An error is a base message optionally wrapped by class tags. -/
inductive Err where
  | base (msg : String)
  | tagged (cls : ErrsClass) (cause : Err)
deriving DecidableEq, Repr

/-- Modelled from the spec: "a classification-matching function rather
than exact type identity checks" (§9); a class `has` an error when the
class tag appears somewhere in the error's cause chain. -/
def ErrsClass.has (c : ErrsClass) : Err → Bool
  | .base _ => false
  | .tagged c2 cause => c == c2 || c.has cause

/-- Creating a fresh error in a class: a base cause wrapped with the
single class tag. -/
def ErrsClass.new (c : ErrsClass) (msg : String) : Err :=
  .tagged c (.base msg)

/-- Wrapping an existing error with a class tag. -/
def ErrsClass.wrap (c : ErrsClass) (e : Err) : Err :=
  .tagged c e

/-- Frame kinds of the wire protocol, spec §3: `kind:
enum{MessageData, MessageDataEnd, Invoke, Close, CloseSend, Error}`. -/
inductive FrameKind where
  | messageData
  | messageDataEnd
  | invokeK
  | closeK
  | closeSendK
  | errorK
deriving DecidableEq, Repr

/-- Modelled from the spec (§3): a frame is `{streamID, kind, payload}`;
payload bytes are modelled as a list of naturals. -/
structure Frame where
  streamID : Nat
  kind : FrameKind
  payload : List Nat
deriving DecidableEq, Repr

/-- Modelled from the spec (§3, §4.2): an encoded message is "split
across multiple MessageData frames if larger" than the maximum payload
size, the final chunk being a MessageDataEnd frame.  A degenerate maximum
of 0 sends the whole message in the final frame. -/
def chunkMessage (maxP sid : Nat) (msg : List Nat) : List Frame :=
  if _h : msg.length ≤ maxP ∨ maxP = 0 then
    [⟨sid, .messageDataEnd, msg⟩]
  else
    ⟨sid, .messageData, msg.take maxP⟩ :: chunkMessage maxP sid (msg.drop maxP)
termination_by msg.length
decreasing_by
  simp only [List.length_drop]
  omega

/-- Modelled from the spec (§3): receiver-side reassembly, "reassembly by
concatenation until MessageDataEnd".  `cur` is the partial message under
reassembly (`none` when between messages); trailing partial data or a
non-data frame is a decode failure. -/
def recvMessagesAux : Option (List Nat) → List Frame → Option (List (List Nat))
  | none, [] => some []
  | some _, [] => none
  | cur, f :: fs =>
    match f.kind with
    | .messageData => recvMessagesAux (some (cur.getD [] ++ f.payload)) fs
    | .messageDataEnd =>
      match recvMessagesAux none fs with
      | some ms => some ((cur.getD [] ++ f.payload) :: ms)
      | none => none
    | _ => none

/-- Modelled from the spec: the peer's successive MsgRecv calls, reading
every message carried by a frame sequence in order. -/
def recvMessages (fs : List Frame) : Option (List (List Nat)) :=
  recvMessagesAux none fs

/-- Modelled from the spec (§3, §4.2): per-stream state of the Stream
Engine: `{id, state, cancelFunc, incoming queue of decoded messages,
outgoing frame sink, peer-closed-send flag, local-closed-send flag}`.
The cancellation context is the `ctxCanceled` flag with its cause; the
outgoing frame sink is the `sent` list. -/
structure StreamSt where
  id : Nat
  localSendClosed : Bool
  peerSendClosed : Bool
  closedFlag : Bool
  ctxCanceled : Bool
  cancelCause : Option Err
  incoming : List (List Nat)
  sent : List Frame
deriving DecidableEq, Repr

/-- The teardown cause used by connection close, spec §4.3: "cancels all
active stream contexts with a connection closed cause". -/
def connClosedCause : Err := Error.new "connection closed"

/-- The cause installed when a stream itself is closed. -/
def streamClosedCause : Err := Error.new "stream closed"

/-- Modelled from the spec (§4.2 `Context()`, §4.3 `Close()`): cancel a
stream's context with a cause.  A stream already canceled is left
untouched, so the teardown cause is delivered at most once. -/
def cancelWith (cause : Err) (s : StreamSt) : StreamSt :=
  if s.ctxCanceled then s
  else { s with ctxCanceled := true, cancelCause := some cause }

/-- Outcome of one MsgRecv call.  A pure model cannot block, so the state
in which the Go code would park the caller is the explicit outcome
`wouldBlock`. -/
inductive RecvOutcome where
  | msg (m : List Nat)
  | eof
  | canceled (cause : Err)
  | wouldBlock
deriving DecidableEq, Repr

/-- Modelled from the spec (§4.2 `MsgRecv`): "blocks until a complete
message has been reassembled from incoming frames for this stream, or the
receive side is closed (returns an end-of-stream signal), or the stream
is canceled (returns the cancellation cause)". -/
def msgRecv (s : StreamSt) : RecvOutcome × StreamSt :=
  if s.ctxCanceled then
    (.canceled (s.cancelCause.getD (Error.new "canceled")), s)
  else
    match s.incoming with
    | m :: rest => (.msg m, { s with incoming := rest })
    | [] => if s.peerSendClosed then (.eof, s) else (.wouldBlock, s)

/-- Modelled from the spec (§4.2 `MsgSend`): "encodes msg, chunks into
MessageData/MessageDataEnd frames, hands to the connection's single
writer; fails with ProtocolError if local send side already closed"; a
canceled stream returns its cancellation cause (§4.2 `Context()`). -/
def msgSend (maxP : Nat) (s : StreamSt) (enc : List Nat) : Except Err StreamSt :=
  if s.ctxCanceled then
    .error (s.cancelCause.getD (Error.new "canceled"))
  else if s.localSendClosed then
    .error (ProtocolError.new "send closed")
  else
    .ok { s with sent := s.sent ++ chunkMessage maxP s.id enc }

/-- Modelled from the spec (§4.2 `CloseSend`): "emits a CloseSend frame;
subsequent MsgSend fails; does not affect receiving"; a canceled stream
fails with its cancellation cause. -/
def closeSend (s : StreamSt) : Except Err StreamSt :=
  if s.ctxCanceled then
    .error (s.cancelCause.getD (Error.new "canceled"))
  else
    .ok { s with localSendClosed := true,
                 sent := s.sent ++ [⟨s.id, .closeSendK, []⟩] }

/-- Modelled from the spec (§4.2 `Close`): "emits Close, releases
resources, cancels the stream's context; idempotent". -/
def streamClose (s : StreamSt) : StreamSt :=
  if s.closedFlag then s
  else
    { s with closedFlag := true,
             ctxCanceled := true,
             cancelCause := if s.ctxCanceled then s.cancelCause
                            else some streamClosedCause,
             localSendClosed := true,
             sent := s.sent ++ [⟨s.id, .closeK, []⟩] }

/-- The receive-side view of a stream: exactly the fields MsgRecv reads
and writes. -/
def recvView (s : StreamSt) : Bool × Option Err × Bool × List (List Nat) :=
  (s.ctxCanceled, s.cancelCause, s.peerSendClosed, s.incoming)

/-- Modelled from the spec (§3 Connection): `{transport, next stream id
counter, table of active streams by id, single-flight guard for
client-issued calls, closed flag}`. -/
structure ConnSt where
  closed : Bool
  inUse : Bool
  nextID : Nat
  streams : List StreamSt
deriving DecidableEq, Repr

/-- Modelled from the spec (§4.3 `Invoke`): "acquires the connection's
single-active-call guard (fails with ProtocolError already-in-use if
held), allocates a new stream ID, sends an Invoke frame ..., awaits
exactly one response message, then releases the guard".  The remote end
of the completed unary exchange is abstracted as a function from rpc name
and request bytes to the response or error delivered back; the guard is
acquired and released within the call, and on failure of the guard check
the state is returned unchanged. -/
def invoke (remote : String → List Nat → Except Err (List Nat))
    (c : ConnSt) (rpc : String) (inB : List Nat) :
    Except Err (List Nat) × ConnSt :=
  if c.inUse then
    (.error (ProtocolError.new "already in use"), c)
  else if c.closed then
    (.error (Error.new "connection closed"), c)
  else
    match remote rpc inB with
    | .ok outB => (.ok outB, { c with nextID := c.nextID + 1 })
    | .error e => (.error e, { c with nextID := c.nextID + 1 })

/-- Modelled from the spec (§4.3 `NewStream`): "same guard, sends Invoke,
returns the live Stream for the caller to drive ... until the guard is
released when the caller Closes the stream".  The guard stays held. -/
def newStream (c : ConnSt) (_rpc : String) : Except Err (StreamSt × ConnSt) :=
  if c.inUse then
    .error (ProtocolError.new "already in use")
  else if c.closed then
    .error (Error.new "connection closed")
  else
    let s : StreamSt :=
      ⟨c.nextID, false, false, false, false, none, [], [⟨c.nextID, .invokeK, []⟩]⟩
    .ok (s, { c with inUse := true, nextID := c.nextID + 1,
                     streams := c.streams ++ [s] })

/-- Modelled from the spec (§4.3): the single-active-call guard is
released when the active call or stream ends. -/
def releaseGuard (c : ConnSt) : ConnSt :=
  { c with inUse := false }

/-- Modelled from the spec (§4.3 `Close`): "stops both loops, closes the
transport, cancels all active stream contexts with a connection closed
cause.  Idempotent." -/
def connClose (c : ConnSt) : ConnSt :=
  if c.closed then c
  else { c with closed := true,
                streams := c.streams.map (cancelWith connClosedCause) }

/-- Modelled from the spec (§3 Dispatch Entry, §9): a dispatch entry is
`{rpc name, handler function, owning service instance}`; the handler and
service instance are abstracted as a function from request bytes to
response bytes. -/
structure MethodDesc where
  rpc : String
  handler : List Nat → List Nat

/-- Modelled from the spec (§6): "a Description exposing method count
and, per index, the RPC name, a handler function, and a method-identity
token". -/
structure Description where
  numMethods : Nat
  method : Nat → MethodDesc

/-- Modelled from the spec (§4.4 `Register`): insert the listed methods
into the dispatch table in order, failing fatally on a name already
present (the panic is modelled as the error result); nothing is replaced
or silently kept. -/
def registerMethods (tbl : List (String × (List Nat → List Nat))) :
    List MethodDesc → Except Err (List (String × (List Nat → List Nat)))
  | [] => .ok tbl
  | m :: rest =>
    if (tbl.map Prod.fst).contains m.rpc then
      .error (Error.new "duplicate rpc")
    else
      registerMethods (tbl ++ [(m.rpc, m.handler)]) rest

/-- Modelled from the spec (§4.4 `Register`): "iterates
desc.NumMethods()/desc.Method(n) and inserts (rpc name) → (handler, srv)
into the table". -/
def register (tbl : List (String × (List Nat → List Nat)))
    (desc : Description) : Except Err (List (String × (List Nat → List Nat))) :=
  registerMethods tbl ((List.range desc.numMethods).map desc.method)

/-- Modelled from the spec (§4.4 per-connection dispatch): "on each
inbound Invoke frame, look up the handler; if absent, respond with a
ProtocolError unknown-rpc on that stream and continue serving other
streams on the same connection; otherwise invoke the handler ... and
close the stream".  The result delivered on the inbound stream is the
handler's response or the classified error; the connection state is
untouched either way, the inbound stream itself is not retained. -/
def handleInvoke (tbl : List (String × (List Nat → List Nat)))
    (c : ConnSt) (rpc : String) (inB : List Nat) :
    Except Err (List Nat) × ConnSt :=
  match tbl.find? (fun p => p.1 == rpc) with
  | none => (.error (ProtocolError.new "unknown rpc"), c)
  | some (_, h) => (.ok (h inB), c)

/-- A concrete open stream used to instantiate the stream theorems. -/
def sampleStream : StreamSt := ⟨1, false, false, false, false, none, [], []⟩

/-- The state of `sampleStream` after a successful CloseSend. -/
def sampleStreamAfterCloseSend : StreamSt :=
  ⟨1, true, false, false, false, none, [], [⟨1, .closeSendK, []⟩]⟩

/-- A concrete connection whose single-active-call guard is held. -/
def sampleBusyConn : ConnSt := ⟨false, true, 0, []⟩

/-- A concrete open connection holding one open stream. -/
def sampleConn : ConnSt := ⟨false, false, 2, [sampleStream]⟩

/-- A concrete remote end answering every unary call with [7]. -/
def sampleRemote : String → List Nat → Except Err (List Nat) :=
  fun _ _ => .ok [7]

/-- A concrete one-method description registering "Echo". -/
def sampleDesc : Description := ⟨1, fun _ => ⟨"Echo", id⟩⟩

/-- A concrete dispatch table holding only "Echo". -/
def sampleTbl : List (String × (List Nat → List Nat)) := [("Echo", id)]

/-! Helper lemmas shared by the claim theorems. -/

theorem chunkMessage_ne_nil (maxP sid : Nat) (msg : List Nat) :
    chunkMessage maxP sid msg ≠ [] := by
  unfold chunkMessage
  split <;> simp

theorem chunk_payload_le (maxP sid : Nat) (hmax : 0 < maxP) (msg : List Nat) :
    ∀ f ∈ chunkMessage maxP sid msg, f.payload.length ≤ maxP := by
  have key : ∀ (n : Nat) (m : List Nat), m.length ≤ n →
      ∀ f ∈ chunkMessage maxP sid m, f.payload.length ≤ maxP := by
    intro n
    induction n with
    | zero =>
      intro m hm f hf
      have hm0 : m = [] := List.length_eq_zero.mp (Nat.le_zero.mp hm)
      subst hm0
      unfold chunkMessage at hf
      simp at hf
      simp [hf]
    | succ n ih =>
      intro m hm f hf
      unfold chunkMessage at hf
      by_cases h : m.length ≤ maxP ∨ maxP = 0
      · rw [dif_pos h] at hf
        simp at hf
        subst hf
        simpa using h.resolve_right (by omega)
      · rw [dif_neg h] at hf
        rcases List.mem_cons.mp hf with rfl | hf2
        · simp [List.length_take]
        · exact ih (m.drop maxP) (by simp [List.length_drop]; omega) f hf2
  exact key msg.length msg le_rfl

theorem chunk_kinds (maxP sid : Nat) (msg : List Nat) :
    (chunkMessage maxP sid msg).map Frame.kind =
      List.replicate ((chunkMessage maxP sid msg).length - 1) FrameKind.messageData
        ++ [FrameKind.messageDataEnd] := by
  have key : ∀ (n : Nat) (m : List Nat), m.length ≤ n →
      (chunkMessage maxP sid m).map Frame.kind =
        List.replicate ((chunkMessage maxP sid m).length - 1) FrameKind.messageData
          ++ [FrameKind.messageDataEnd] := by
    intro n
    induction n with
    | zero =>
      intro m hm
      have hm0 : m = [] := List.length_eq_zero.mp (Nat.le_zero.mp hm)
      subst hm0
      unfold chunkMessage
      simp
    | succ n ih =>
      intro m hm
      unfold chunkMessage
      by_cases h : m.length ≤ maxP ∨ maxP = 0
      · rw [dif_pos h]; simp
      · rw [dif_neg h]
        have hrec := ih (m.drop maxP) (by simp [List.length_drop]; omega)
        obtain ⟨g, gs, hcons⟩ : ∃ g gs, chunkMessage maxP sid (m.drop maxP) = g :: gs := by
          rcases hc : chunkMessage maxP sid (m.drop maxP) with _ | ⟨g, gs⟩
          · exact absurd hc (chunkMessage_ne_nil maxP sid (m.drop maxP))
          · exact ⟨g, gs, rfl⟩
        rw [hcons] at hrec
        simp only [List.map_cons, hcons, List.length_cons, Nat.add_sub_cancel,
          List.replicate_succ, List.cons_append]
        exact congrArg (List.cons FrameKind.messageData) (by simpa using hrec)
  exact key msg.length msg le_rfl

theorem recvAux_chunk (maxP sid : Nat) (msg : List Nat) (cur : Option (List Nat))
    (fs : List Frame) :
    recvMessagesAux cur (chunkMessage maxP sid msg ++ fs) =
      (recvMessagesAux none fs).map (fun ms => (cur.getD [] ++ msg) :: ms) := by
  have key : ∀ (n : Nat) (m : List Nat), m.length ≤ n →
      ∀ (cur2 : Option (List Nat)),
      recvMessagesAux cur2 (chunkMessage maxP sid m ++ fs) =
        (recvMessagesAux none fs).map (fun ms => (cur2.getD [] ++ m) :: ms) := by
    intro n
    induction n with
    | zero =>
      intro m hm cur2
      have hm0 : m = [] := List.length_eq_zero.mp (Nat.le_zero.mp hm)
      subst hm0
      unfold chunkMessage
      simp [recvMessagesAux]
      rcases recvMessagesAux none fs with _ | ms <;> simp
    | succ n ih =>
      intro m hm cur2
      by_cases h : m.length ≤ maxP ∨ maxP = 0
      · unfold chunkMessage
        rw [dif_pos h]
        simp [recvMessagesAux]
        rcases recvMessagesAux none fs with _ | ms <;> simp
      · unfold chunkMessage
        rw [dif_neg h]
        simp only [List.cons_append]
        rw [recvMessagesAux]
        simp only []
        rw [ih (m.drop maxP) (by simp [List.length_drop]; omega)
            (some (cur2.getD [] ++ (m.take maxP)))]
        rcases recvMessagesAux none fs with _ | ms <;>
          simp [List.append_assoc, List.take_append_drop]
  exact key msg.length msg le_rfl cur

/-! Claim theorems. -/

/-- C7: every frame produced for an encoded message carries a payload of
at most the maximum size; a message larger than the maximum is split
across several frames, all MessageData except a final MessageDataEnd;
and the receiver reassembles the original message by concatenating the
payloads in order until MessageDataEnd. -/
theorem chunk_bounded_split_reassembles (maxP sid : Nat) (msg : List Nat)
    (hmax : 0 < maxP) :
    (∀ f ∈ chunkMessage maxP sid msg, f.payload.length ≤ maxP) ∧
    (maxP < msg.length → 2 ≤ (chunkMessage maxP sid msg).length) ∧
    ((chunkMessage maxP sid msg).map Frame.kind =
      List.replicate ((chunkMessage maxP sid msg).length - 1) FrameKind.messageData
        ++ [FrameKind.messageDataEnd]) ∧
    recvMessages (chunkMessage maxP sid msg) = some [msg] := by
  refine ⟨chunk_payload_le maxP sid hmax msg, ?_, chunk_kinds maxP sid msg, ?_⟩
  · intro hlt
    unfold chunkMessage
    rw [dif_neg (by omega)]
    have hne := chunkMessage_ne_nil maxP sid (msg.drop maxP)
    have hlen := List.length_pos.mpr hne
    simp only [List.length_cons]
    omega
  · have h := recvAux_chunk maxP sid msg none []
    simpa [recvMessages, recvMessagesAux] using h

/-- Witness for C7: maximum payload 2, stream id 0, message [1, 2, 3]. -/
theorem chunk_bounded_split_reassembles_witness :
    0 < 2 ∧
    ((∀ f ∈ chunkMessage 2 0 [1, 2, 3], f.payload.length ≤ 2) ∧
     (2 < ([1, 2, 3] : List Nat).length → 2 ≤ (chunkMessage 2 0 [1, 2, 3]).length) ∧
     ((chunkMessage 2 0 [1, 2, 3]).map Frame.kind =
       List.replicate ((chunkMessage 2 0 [1, 2, 3]).length - 1) FrameKind.messageData
         ++ [FrameKind.messageDataEnd]) ∧
     recvMessages (chunkMessage 2 0 [1, 2, 3]) = some [[1, 2, 3]]) :=
  ⟨by decide, chunk_bounded_split_reassembles 2 0 [1, 2, 3] (by decide)⟩

/-- C1: for every sequence of messages sent on one side of a stream via
MsgSend, the peer's successive MsgRecv calls receive exactly those
messages, byte-for-byte and in order, independently of how each message
was chunked into MessageData/MessageDataEnd frames (each message may use
its own chunk size). -/
theorem msg_roundtrip_ordered (sid : Nat) (maxOf : List Nat → Nat)
    (msgs : List (List Nat)) :
    recvMessages ((msgs.map (fun m => chunkMessage (maxOf m) sid m)).flatten) =
      some msgs := by
  induction msgs with
  | nil => simp [recvMessages, recvMessagesAux]
  | cons m ms ih =>
    simp only [List.map_cons, List.flatten_cons]
    rw [recvMessages, recvAux_chunk]
    rw [recvMessages] at ih
    simp [ih]

/-- C2: Invoke (or NewStream) on a Conn whose single-active-call guard is
held fails immediately with a ProtocolError and leaves the connection
state unchanged; once the active call or stream ends and the guard is
released, a subsequent Invoke on the same Conn succeeds. -/
theorem invoke_single_active_guard
    (remote : String → List Nat → Except Err (List Nat))
    (c : ConnSt) (rpc rpc2 : String) (inB inB2 outB : List Nat)
    (hbusy : c.inUse = true) (hopen : c.closed = false)
    (hremote : remote rpc2 inB2 = .ok outB) :
    (∃ e, (invoke remote c rpc inB).1 = .error e ∧ ProtocolError.has e = true) ∧
    (invoke remote c rpc inB).2 = c ∧
    (∃ e2, newStream c rpc = .error e2 ∧ ProtocolError.has e2 = true) ∧
    (invoke remote (releaseGuard c) rpc2 inB2).1 = .ok outB := by
  refine ⟨⟨ProtocolError.new "already in use", ?_, ?_⟩, ?_,
    ⟨ProtocolError.new "already in use", ?_, ?_⟩, ?_⟩ <;>
      simp [invoke, newStream, releaseGuard, hbusy, hopen, hremote,
        ErrsClass.has, ErrsClass.new]

/-- Witness for C2: a busy connection rejecting, then accepting once the
guard is released. -/
theorem invoke_single_active_guard_witness :
    sampleBusyConn.inUse = true ∧ sampleBusyConn.closed = false ∧
    sampleRemote "B" [2] = .ok [7] ∧
    ((∃ e, (invoke sampleRemote sampleBusyConn "A" [1]).1 = .error e ∧
        ProtocolError.has e = true) ∧
     (invoke sampleRemote sampleBusyConn "A" [1]).2 = sampleBusyConn ∧
     (∃ e2, newStream sampleBusyConn "A" = .error e2 ∧
        ProtocolError.has e2 = true) ∧
     (invoke sampleRemote (releaseGuard sampleBusyConn) "B" [2]).1 = .ok [7]) :=
  ⟨rfl, rfl, rfl,
    invoke_single_active_guard sampleRemote sampleBusyConn "A" "B" [1] [2] [7]
      rfl rfl rfl⟩

/-- C3: closing an open connection is idempotent and cancels every
outstanding stream exactly once with the "connection closed" cause: every
stream of the closed connection is canceled, its MsgRecv never blocks and
its MsgSend returns an error; a stream already canceled is left untouched
by the teardown, so the cause is never delivered twice. -/
theorem conn_close_cancels_once (c : ConnSt) (hopen : c.closed = false) :
    connClose (connClose c) = connClose c ∧
    (connClose c).closed = true ∧
    (∀ s ∈ (connClose c).streams,
       s.ctxCanceled = true ∧
       (msgRecv s).1 ≠ RecvOutcome.wouldBlock ∧
       (∀ maxP enc, ∃ e, msgSend maxP s enc = .error e)) ∧
    (∀ s ∈ c.streams, s.ctxCanceled = false →
       (cancelWith connClosedCause s).cancelCause = some connClosedCause ∧
       (cancelWith connClosedCause s).ctxCanceled = true) ∧
    (∀ s ∈ c.streams, s.ctxCanceled = true → cancelWith connClosedCause s = s) := by
  refine ⟨?_, ?_, ?_, ?_, ?_⟩
  · simp [connClose, hopen]
  · simp [connClose, hopen]
  · intro s hs
    simp only [connClose, hopen, Bool.false_eq_true, if_false, List.mem_map] at hs
    obtain ⟨s0, _, rfl⟩ := hs
    have hctx : (cancelWith connClosedCause s0).ctxCanceled = true := by
      by_cases h : s0.ctxCanceled <;> simp [cancelWith, h]
    refine ⟨hctx, ?_, ?_⟩
    · simp [msgRecv, hctx]
    · intro maxP enc
      exact ⟨(cancelWith connClosedCause s0).cancelCause.getD (Error.new "canceled"),
        by simp [msgSend, hctx]⟩
  · intro s _ h
    simp [cancelWith, h]
  · intro s _ h
    simp [cancelWith, h]

/-- Witness for C3: an open connection with one open stream. -/
theorem conn_close_cancels_once_witness :
    sampleConn.closed = false ∧
    (connClose (connClose sampleConn) = connClose sampleConn ∧
     (connClose sampleConn).closed = true ∧
     (∀ s ∈ (connClose sampleConn).streams,
        s.ctxCanceled = true ∧
        (msgRecv s).1 ≠ RecvOutcome.wouldBlock ∧
        (∀ maxP enc, ∃ e, msgSend maxP s enc = .error e)) ∧
     (∀ s ∈ sampleConn.streams, s.ctxCanceled = false →
        (cancelWith connClosedCause s).cancelCause = some connClosedCause ∧
        (cancelWith connClosedCause s).ctxCanceled = true) ∧
     (∀ s ∈ sampleConn.streams, s.ctxCanceled = true →
        cancelWith connClosedCause s = s)) :=
  ⟨rfl, conn_close_cancels_once sampleConn rfl⟩

/-- C4: an inbound Invoke naming an rpc absent from the dispatch table is
answered on its own stream with a ProtocolError, the connection state is
left untouched (the failed stream alone is not retained), and a
subsequent Invoke on the same connection for a registered rpc still
succeeds with its handler's response. -/
theorem unknown_rpc_protocol_error (tbl : List (String × (List Nat → List Nat)))
    (c : ConnSt) (rpc : String) (inB : List Nat)
    (habs : tbl.find? (fun p => p.1 == rpc) = none) :
    (∃ e, (handleInvoke tbl c rpc inB).1 = .error e ∧ ProtocolError.has e = true) ∧
    (handleInvoke tbl c rpc inB).2 = c ∧
    (∀ rpc2 inB2 p, tbl.find? (fun q => q.1 == rpc2) = some p →
       (handleInvoke tbl (handleInvoke tbl c rpc inB).2 rpc2 inB2).1 =
         .ok (p.2 inB2)) := by
  refine ⟨⟨ProtocolError.new "unknown rpc", ?_, ?_⟩, ?_, ?_⟩
  · simp [handleInvoke, habs]
  · simp [ErrsClass.has, ErrsClass.new]
  · simp [handleInvoke, habs]
  · intro rpc2 inB2 p hp
    simp [handleInvoke, habs, hp]

/-- Witness for C4: "Nope" is absent from the table holding "Echo". -/
theorem unknown_rpc_protocol_error_witness :
    sampleTbl.find? (fun p => p.1 == "Nope") = none ∧
    ((∃ e, (handleInvoke sampleTbl sampleConn "Nope" [1]).1 = .error e ∧
        ProtocolError.has e = true) ∧
     (handleInvoke sampleTbl sampleConn "Nope" [1]).2 = sampleConn ∧
     (∀ rpc2 inB2 p, sampleTbl.find? (fun q => q.1 == rpc2) = some p →
        (handleInvoke sampleTbl
          (handleInvoke sampleTbl sampleConn "Nope" [1]).2 rpc2 inB2).1 =
            .ok (p.2 inB2))) :=
  ⟨rfl, unknown_rpc_protocol_error sampleTbl sampleConn "Nope" [1] rfl⟩

/-- C6: after CloseSend returns successfully on a stream, every further
MsgSend on it fails with a ProtocolError, while the receive side is
untouched: the stream's receive-side view is unchanged and MsgRecv's
outcome depends only on that view, so it keeps delivering the peer's
messages exactly as before. -/
theorem closesend_blocks_send_only (s s2 : StreamSt) (h : closeSend s = .ok s2) :
    (∀ maxP enc, ∃ e, msgSend maxP s2 enc = .error e ∧ ProtocolError.has e = true) ∧
    recvView s2 = recvView s ∧
    (∀ t u : StreamSt, recvView t = recvView u →
       (msgRecv t).1 = (msgRecv u).1 ∧ recvView (msgRecv t).2 = recvView (msgRecv u).2) := by
  have hnc : s.ctxCanceled = false := by
    by_cases hc : s.ctxCanceled
    · simp [closeSend, hc] at h
    · simpa using hc
  have hs2 : s2 = { s with localSendClosed := true, ctxCanceled := false,
                           sent := s.sent ++ [⟨s.id, .closeSendK, []⟩] } := by
    simp [closeSend, hnc] at h
    exact h.symm
  subst hs2
  refine ⟨?_, ?_, ?_⟩
  · intro maxP enc
    exact ⟨ProtocolError.new "send closed",
      by simp [msgSend, hnc], by simp [ErrsClass.has, ErrsClass.new]⟩
  · simp [recvView, hnc]
  · intro t u htu
    simp only [recvView, Prod.mk.injEq] at htu
    obtain ⟨h1, h2, h3, h4⟩ := htu
    by_cases hct : u.ctxCanceled
    · simp [msgRecv, recvView, h1, h2, h3, h4, hct]
    · rcases hinc : u.incoming with _ | ⟨m, rest⟩
      · by_cases hps : u.peerSendClosed <;>
          simp [msgRecv, recvView, h1, h2, h3, h4, hct, hinc, hps]
      · simp [msgRecv, recvView, h1, h2, h3, h4, hct, hinc]

/-- Witness for C6: CloseSend on a concrete open stream. -/
theorem closesend_blocks_send_only_witness :
    closeSend sampleStream = .ok sampleStreamAfterCloseSend ∧
    ((∀ maxP enc, ∃ e,
        msgSend maxP sampleStreamAfterCloseSend enc = .error e ∧
        ProtocolError.has e = true) ∧
     recvView sampleStreamAfterCloseSend = recvView sampleStream ∧
     (∀ t u : StreamSt, recvView t = recvView u →
        (msgRecv t).1 = (msgRecv u).1 ∧
        recvView (msgRecv t).2 = recvView (msgRecv u).2)) :=
  ⟨rfl, closesend_blocks_send_only sampleStream sampleStreamAfterCloseSend rfl⟩

/-- C9: closing a stream is idempotent (a second Close leaves the state
exactly as after the first) and after the first Close the stream's
context is canceled, every MsgSend fails and MsgRecv returns the
cancellation cause, so no further message is ever sent or received. -/
theorem stream_close_idempotent_cancels (s : StreamSt) (h : s.closedFlag = false) :
    streamClose (streamClose s) = streamClose s ∧
    (streamClose s).ctxCanceled = true ∧
    (∀ maxP enc, ∃ e, msgSend maxP (streamClose s) enc = .error e) ∧
    (∃ cause, (msgRecv (streamClose s)).1 = .canceled cause) := by
  have hcl : streamClose s =
      { s with closedFlag := true, ctxCanceled := true,
               cancelCause := if s.ctxCanceled then s.cancelCause
                              else some streamClosedCause,
               localSendClosed := true,
               sent := s.sent ++ [⟨s.id, .closeK, []⟩] } := by
    simp [streamClose, h]
  refine ⟨?_, ?_, ?_, ?_⟩
  · rw [hcl]
    simp [streamClose]
  · rw [hcl]
  · intro maxP enc
    rw [hcl]
    exact ⟨(if s.ctxCanceled then s.cancelCause
            else some streamClosedCause).getD (Error.new "canceled"),
      by simp [msgSend]⟩
  · rw [hcl]
    exact ⟨(if s.ctxCanceled then s.cancelCause
            else some streamClosedCause).getD (Error.new "canceled"),
      by simp [msgRecv]⟩

/-- Witness for C9: closing the concrete open stream. -/
theorem stream_close_idempotent_cancels_witness :
    sampleStream.closedFlag = false ∧
    (streamClose (streamClose sampleStream) = streamClose sampleStream ∧
     (streamClose sampleStream).ctxCanceled = true ∧
     (∀ maxP enc, ∃ e, msgSend maxP (streamClose sampleStream) enc = .error e) ∧
     (∃ cause, (msgRecv (streamClose sampleStream)).1 = .canceled cause)) :=
  ⟨rfl, stream_close_idempotent_cancels sampleStream rfl⟩

theorem registerMethods_ok_mem (ms : List MethodDesc) :
    ∀ tbl tbl2, registerMethods tbl ms = .ok tbl2 →
      (∀ p ∈ tbl, p ∈ tbl2) ∧ ∀ m ∈ ms, (m.rpc, m.handler) ∈ tbl2 := by
  induction ms with
  | nil =>
    intro tbl tbl2 h
    simp [registerMethods] at h
    subst h
    exact ⟨fun p hp => hp, by simp⟩
  | cons m rest ih =>
    intro tbl tbl2 h
    simp only [registerMethods] at h
    by_cases hc : (tbl.map Prod.fst).contains m.rpc = true
    · rw [if_pos hc] at h
      exact Except.noConfusion h
    · rw [if_neg hc] at h
      obtain ⟨hsub, hmem⟩ := ih _ _ h
      refine ⟨fun p hp => hsub p (by simp [hp]), ?_⟩
      intro m2 hm2
      rcases List.mem_cons.mp hm2 with rfl | hm2
      · exact hsub _ (by simp)
      · exact hmem _ hm2

theorem registerMethods_dup_error (ms : List MethodDesc) :
    ∀ tbl, (tbl.map Prod.fst).Nodup →
      ¬ (tbl.map Prod.fst ++ ms.map MethodDesc.rpc).Nodup →
      ∃ e, registerMethods tbl ms = .error e := by
  induction ms with
  | nil =>
    intro tbl hnd hdup
    simp at hdup
    exact absurd hnd hdup
  | cons m rest ih =>
    intro tbl hnd hdup
    by_cases hc : (tbl.map Prod.fst).contains m.rpc = true
    · refine ⟨Error.new "duplicate rpc", ?_⟩
      simp only [registerMethods]
      rw [if_pos hc]
    · have hmem : m.rpc ∉ tbl.map Prod.fst := by
        simpa using hc
      have hnd2 : ((tbl ++ [(m.rpc, m.handler)]).map Prod.fst).Nodup := by
        simp [List.nodup_append, hnd, hmem]
      have hdup2 :
          ¬ ((tbl ++ [(m.rpc, m.handler)]).map Prod.fst
              ++ rest.map MethodDesc.rpc).Nodup := by
        intro hcon
        apply hdup
        simpa [List.append_assoc] using hcon
      obtain ⟨e, he⟩ := ih _ hnd2 hdup2
      refine ⟨e, ?_⟩
      simp only [registerMethods]
      rw [if_neg hc]
      exact he

/-- C8: Register iterates the description's methods by index and inserts
every (rpc name, handler) pair into the dispatch table: whenever it
returns a table, every listed method is present in it; and whenever a
listed name duplicates one already present (in the prior table or earlier
in the same description), Register fails fatally instead of silently
replacing or keeping the entry. -/
theorem register_inserts_or_fails (tbl : List (String × (List Nat → List Nat)))
    (desc : Description) (hnd : (tbl.map Prod.fst).Nodup) :
    (∀ tbl2, register tbl desc = .ok tbl2 →
       ∀ n < desc.numMethods,
         ((desc.method n).rpc, (desc.method n).handler) ∈ tbl2) ∧
    (¬ (tbl.map Prod.fst
          ++ ((List.range desc.numMethods).map desc.method).map MethodDesc.rpc).Nodup →
       ∃ e, register tbl desc = .error e) := by
  constructor
  · intro tbl2 h n hn
    unfold register at h
    exact (registerMethods_ok_mem _ _ _ h).2 (desc.method n)
      (List.mem_map_of_mem _ (List.mem_range.mpr hn))
  · intro hdup
    exact registerMethods_dup_error _ _ hnd hdup

/-- Witness for C8: registering the one-method "Echo" description into an
empty table. -/
theorem register_inserts_or_fails_witness :
    (([] : List (String × (List Nat → List Nat))).map Prod.fst).Nodup ∧
    ((∀ tbl2, register [] sampleDesc = .ok tbl2 →
        ∀ n < sampleDesc.numMethods,
          ((sampleDesc.method n).rpc, (sampleDesc.method n).handler) ∈ tbl2) ∧
     (¬ (([] : List (String × (List Nat → List Nat))).map Prod.fst
           ++ ((List.range sampleDesc.numMethods).map sampleDesc.method).map
                MethodDesc.rpc).Nodup →
        ∃ e, register [] sampleDesc = .error e)) :=
  ⟨by simp, register_inserts_or_fails [] sampleDesc (by simp)⟩

/-- C5 counterexample: an error created under the InternalError class is
not classified under the generic Error class, so Error is not a top-level
class containing all of the system's errors. -/
theorem error_class_not_containing_counterexample :
    Error.has (InternalError.new "encode failure") = false := by
  simp [ErrsClass.has, ErrsClass.new, Error, InternalError]

/-- C5 amended: every error the system produces is created or wrapped
under one of the three classes and its own class test accepts it
(classification by tag); Error is the sibling generic class used when no
more specific class applies, and errors classified as InternalError or
ProtocolError are not also classified under Error. -/
theorem error_classification_amended :
    (∀ m, Error.has (Error.new m) = true ∧
          InternalError.has (InternalError.new m) = true ∧
          ProtocolError.has (ProtocolError.new m) = true) ∧
    (∀ (c : ErrsClass) (e : Err), c.has (c.wrap e) = true) ∧
    (∀ m, Error.has (InternalError.new m) = false ∧
          Error.has (ProtocolError.new m) = false ∧
          InternalError.has (Error.new m) = false ∧
          ProtocolError.has (Error.new m) = false) := by
  refine ⟨?_, ?_, ?_⟩
  · intro m
    refine ⟨?_, ?_, ?_⟩ <;> simp [ErrsClass.has, ErrsClass.new]
  · intro c e
    simp [ErrsClass.has, ErrsClass.wrap]
  · intro m
    refine ⟨?_, ?_, ?_, ?_⟩ <;>
      simp [ErrsClass.has, ErrsClass.new, Error, InternalError, ProtocolError]

/-- C10: the three error classes carry pairwise distinct names and are
independent siblings: a class test accepts a freshly classified error
exactly when the classes coincide, a wrap adds only its own tag, and in
particular each cross-class test among Error, InternalError and
ProtocolError rejects. -/
theorem error_classes_disjoint :
    (Error ≠ InternalError ∧ Error ≠ ProtocolError ∧ InternalError ≠ ProtocolError) ∧
    (∀ (c1 c2 : ErrsClass) (m : String), c2.has (c1.new m) = decide (c2 = c1)) ∧
    (∀ (c1 c2 : ErrsClass) (e : Err),
       c2.has (c1.wrap e) = (decide (c2 = c1) || c2.has e)) ∧
    (∀ m, InternalError.has (ProtocolError.new m) = false ∧
          ProtocolError.has (InternalError.new m) = false ∧
          InternalError.has (Error.new m) = false ∧
          ProtocolError.has (Error.new m) = false ∧
          Error.has (InternalError.new m) = false ∧
          Error.has (ProtocolError.new m) = false) := by
  refine ⟨⟨by decide, by decide, by decide⟩, ?_, ?_, ?_⟩
  · intro c1 c2 m
    by_cases h : c2 = c1 <;> simp [ErrsClass.has, ErrsClass.new, h]
  · intro c1 c2 e
    by_cases h : c2 = c1 <;> simp [ErrsClass.has, ErrsClass.wrap, h]
  · intro m
    refine ⟨?_, ?_, ?_, ?_, ?_, ?_⟩ <;>
      simp [ErrsClass.has, ErrsClass.new, Error, InternalError, ProtocolError]

end Drpc
